import Mathlib

/-
Verification of the dispatch/session core of `bdk-cli` (`src/bdk_cli.rs`)
against its natural-language specification.

The development shallowly embeds:
  * the REPL line tokenizer (the regex `"([^"]*)"|'([^']*)'|([\w\-]+)`
    applied via `captures_iter`, lines 52 and 205-214 of the source),
  * the backend-config builder inside `new_online_wallet` (lines 99-121),
  * the wallet constructors `new_online_wallet` / `new_offline_wallet`
    (lines 91-147) over an abstract wallet-library collaborator,
  * one cycle of the interactive REPL loop of `main` (lines 197-257),
    with the collaborator handlers and the clap-derived command resolver
    as abstract parameters.

Strings are modelled as `List Char`; `Result` as `Except`; a Rust
`unwrap()` on an `Err` (a panic aborting the process) is modelled as an
explicit abnormal outcome where the distinction matters, and as `Except`
propagation where the surrounding code only has the success path.
-/

namespace BdkCli

/-! ## Characters and the REPL line tokenizer -/

/-- The double-quote character `"` (code 34). -/
def dquote : Char := Char.ofNat 34

/-- The single-quote character (code 39). -/
def squote : Char := Char.ofNat 39

/-- A character matched by the `[\w\-]` class of `REPL_LINE_SPLIT_REGEX`:
a word character (letter, digit, underscore) or a hyphen. -/
def isWordChar (c : Char) : Bool := c.isAlphanum || c = '_' || c = '-'

/-- Whitespace as used by Rust `str::trim` (restricted to the ASCII
whitespace characters relevant to command lines). -/
def isWhitespaceChar (c : Char) : Bool := c = ' ' || c = '\t' || c = '\n' || c = '\r'

/-- Model of Rust `line.trim()`: strip leading and trailing whitespace. -/
def trim (l : List Char) : List Char :=
  ((l.dropWhile isWhitespaceChar).reverse.dropWhile isWhitespaceChar).reverse

/-- Split a character list at the first occurrence of `q`: returns the
part strictly before the first `q` and the part strictly after it, or
`none` when `q` does not occur.  This is how the regex alternative
`"([^"]*)"` consumes input after an opening quote: the capture is
everything up to the next closing quote. -/
def splitAtChar (q : Char) : List Char → Option (List Char × List Char)
  | [] => none
  | c :: rest =>
    if c = q then some ([], rest)
    else
      match splitAtChar q rest with
      | some (a, b) => some (c :: a, b)
      | none => none

/-- Fuel-indexed scanner implementing `captures_iter` of
`REPL_LINE_SPLIT_REGEX = "([^"]*)"|'([^']*)'|([\w\-]+)` followed by the
`c.get(1).or(c.get(2)).or(c.get(3))` projection (source lines 205-214):
scanning left to right, at each position the engine first tries a
double-quoted run, then a single-quoted run, then a maximal run of
word/hyphen characters; a position where no alternative matches (including
an unterminated quote) is skipped.  One unit of fuel is consumed per
scanned position, so `fuel = length` always suffices. -/
def tokenizeFuel : Nat → List Char → List (List Char)
  | 0, _ => []
  | _ + 1, [] => []
  | fuel + 1, c :: rest =>
    if c = dquote then
      match splitAtChar dquote rest with
      | some (interior, rest2) => interior :: tokenizeFuel fuel rest2
      | none => tokenizeFuel fuel rest
    else if c = squote then
      match splitAtChar squote rest with
      | some (interior, rest2) => interior :: tokenizeFuel fuel rest2
      | none => tokenizeFuel fuel rest
    else if isWordChar c then
      (c :: rest.takeWhile isWordChar) :: tokenizeFuel fuel (rest.dropWhile isWordChar)
    else
      tokenizeFuel fuel rest

/-- The REPL line tokenizer (source lines 52 and 205-214). -/
def tokenize (l : List Char) : List (List Char) := tokenizeFuel l.length l

/-! ### Basic lemmas about the tokenizer -/

theorem splitAtChar_sound (q : Char) :
    ∀ (l a b : List Char), splitAtChar q l = some (a, b) → l = a ++ q :: b ∧ q ∉ a := by
  intro l
  induction l with
  | nil => intro a b h; simp [splitAtChar] at h
  | cons c rest ih =>
    intro a b h
    by_cases hc : c = q
    · subst hc
      simp [splitAtChar] at h
      obtain ⟨ha, hb⟩ := h
      subst ha; subst hb
      simp
    · simp [splitAtChar, hc] at h
      cases hsp : splitAtChar q rest with
      | none => rw [hsp] at h; simp at h
      | some ab =>
        obtain ⟨a0, b0⟩ := ab
        rw [hsp] at h
        simp at h
        obtain ⟨ha, hb⟩ := h
        obtain ⟨h1, h2⟩ := ih a0 b0 hsp
        subst ha; subst hb
        constructor
        · simp [h1]
        · simp
          constructor
          · intro he; exact hc he.symm
          · exact h2

theorem splitAtChar_none_of_not_mem (q : Char) :
    ∀ (l : List Char), q ∉ l → splitAtChar q l = none := by
  intro l
  induction l with
  | nil => intro _; rfl
  | cons c rest ih =>
    intro h
    have hc : ¬ c = q := by
      intro he; exact h (by simp [he])
    have hrest : q ∉ rest := by
      intro hm; exact h (by simp [hm])
    simp [splitAtChar, hc, ih hrest]

theorem dropWhile_length_le (p : Char → Bool) :
    ∀ (l : List Char), (l.dropWhile p).length ≤ l.length := by
  intro l
  induction l with
  | nil => simp [List.dropWhile]
  | cons c rest ih =>
    by_cases hc : p c
    · simp [List.dropWhile, hc]
      omega
    · simp [List.dropWhile, hc]

theorem dropWhile_head_false (p : Char → Bool) :
    ∀ (l c rest), List.dropWhile p l = c :: rest → p c = false := by
  intro l
  induction l with
  | nil => intro c rest h; simp [List.dropWhile] at h
  | cons d tl ih =>
    intro c rest h
    by_cases hd : p d
    · rw [List.dropWhile_cons_of_pos hd] at h
      exact ih c rest h
    · rw [List.dropWhile_cons_of_neg hd] at h
      cases h
      simpa using hd

theorem takeWhile_append_stop (p : Char → Bool) :
    ∀ (xs : List Char) (d : Char) (ys : List Char),
      (∀ c ∈ xs, p c = true) → p d = false →
      (xs ++ d :: ys).takeWhile p = xs ∧ (xs ++ d :: ys).dropWhile p = d :: ys := by
  intro xs
  induction xs with
  | nil =>
    intro d ys _ hd
    simp [List.takeWhile, List.dropWhile, hd]
  | cons c tl ih =>
    intro d ys hall hd
    have hc : p c = true := hall c (by simp)
    have htl : ∀ c ∈ tl, p c = true := fun c hm => hall c (by simp [hm])
    obtain ⟨h1, h2⟩ := ih d ys htl hd
    constructor
    · simp [List.takeWhile_cons_of_pos hc, h1]
    · simp [List.dropWhile_cons_of_pos hc, h2]

theorem takeWhile_all (p : Char → Bool) :
    ∀ (xs : List Char), (∀ c ∈ xs, p c = true) →
      xs.takeWhile p = xs ∧ xs.dropWhile p = [] := by
  intro xs
  induction xs with
  | nil => intro _; simp
  | cons c tl ih =>
    intro hall
    have hc : p c = true := hall c (by simp)
    have htl : ∀ c ∈ tl, p c = true := fun c hm => hall c (by simp [hm])
    obtain ⟨h1, h2⟩ := ih htl
    constructor
    · simp [List.takeWhile_cons_of_pos hc, h1]
    · simp [List.dropWhile_cons_of_pos hc, h2]

theorem dquote_ne_squote : dquote ≠ squote := by decide

theorem squote_ne_dquote : ¬ squote = dquote := by decide

theorem isWordChar_dquote : isWordChar dquote = false := by decide

theorem isWordChar_squote : isWordChar squote = false := by decide

/-- The scanner is fuel-irrelevant once the fuel covers the input length. -/
theorem tokenizeFuel_congr :
    ∀ (f g : Nat) (l : List Char), l.length ≤ f → l.length ≤ g →
      tokenizeFuel f l = tokenizeFuel g l := by
  intro f
  induction f with
  | zero =>
    intro g l hf _
    have : l = [] := by
      cases l with
      | nil => rfl
      | cons c rest => simp at hf
    subst this
    cases g <;> rfl
  | succ f ih =>
    intro g l hf hg
    cases l with
    | nil => cases g <;> rfl
    | cons c rest =>
      cases g with
      | zero => simp at hg
      | succ g =>
        have hrest_f : rest.length ≤ f := by simp at hf; omega
        have hrest_g : rest.length ≤ g := by simp at hg; omega
        simp only [tokenizeFuel]
        by_cases hc1 : c = dquote
        · simp only [if_pos hc1]
          cases hsp : splitAtChar dquote rest with
          | none => exact ih g rest hrest_f hrest_g
          | some ab =>
            obtain ⟨interior, rest2⟩ := ab
            have hdec := (splitAtChar_sound dquote rest interior rest2 hsp).1
            have hlen : rest2.length ≤ rest.length := by
              rw [hdec]; simp; omega
            show interior :: tokenizeFuel f rest2 = interior :: tokenizeFuel g rest2
            rw [ih g rest2 (le_trans hlen hrest_f) (le_trans hlen hrest_g)]
        · simp only [if_neg hc1]
          by_cases hc2 : c = squote
          · simp only [if_pos hc2]
            cases hsp : splitAtChar squote rest with
            | none => exact ih g rest hrest_f hrest_g
            | some ab =>
              obtain ⟨interior, rest2⟩ := ab
              have hdec := (splitAtChar_sound squote rest interior rest2 hsp).1
              have hlen : rest2.length ≤ rest.length := by
                rw [hdec]; simp; omega
              show interior :: tokenizeFuel f rest2 = interior :: tokenizeFuel g rest2
              rw [ih g rest2 (le_trans hlen hrest_f) (le_trans hlen hrest_g)]
          · simp only [if_neg hc2]
            by_cases hw : isWordChar c
            · simp only [if_pos hw]
              have hlen := dropWhile_length_le isWordChar rest
              rw [ih g (rest.dropWhile isWordChar) (le_trans hlen hrest_f)
                (le_trans hlen hrest_g)]
            · simp only [if_neg hw]
              exact ih g rest hrest_f hrest_g

/-! ### Unfolding equations for `tokenize` -/

theorem tokenize_nil : tokenize [] = [] := rfl

theorem tokenize_quote_closed (q : Char) (rest interior rest2 : List Char)
    (hq : q = dquote ∨ q = squote)
    (h : splitAtChar q rest = some (interior, rest2)) :
    tokenize (q :: rest) = interior :: tokenize rest2 := by
  have hlen : rest2.length ≤ rest.length := by
    have hdec := (splitAtChar_sound q rest interior rest2 h).1
    rw [hdec]; simp; omega
  have hcongr : tokenizeFuel rest.length rest2 = tokenize rest2 :=
    tokenizeFuel_congr rest.length rest2.length rest2 hlen (le_refl _)
  cases hq with
  | inl hq =>
    subst hq
    show tokenizeFuel (rest.length + 1) (dquote :: rest) = _
    simp only [tokenizeFuel, h, eq_self_iff_true, if_true]
    rw [hcongr]
  | inr hq =>
    subst hq
    show tokenizeFuel (rest.length + 1) (squote :: rest) = _
    simp only [tokenizeFuel, h, eq_self_iff_true, if_true]
    rw [hcongr, if_neg squote_ne_dquote]

theorem tokenize_quote_open (q : Char) (rest : List Char)
    (hq : q = dquote ∨ q = squote)
    (h : splitAtChar q rest = none) :
    tokenize (q :: rest) = tokenize rest := by
  have hcongr : tokenizeFuel rest.length rest = tokenize rest := rfl
  cases hq with
  | inl hq =>
    subst hq
    show tokenizeFuel (rest.length + 1) (dquote :: rest) = _
    simp only [tokenizeFuel, h, eq_self_iff_true, if_true]
    exact hcongr
  | inr hq =>
    subst hq
    show tokenizeFuel (rest.length + 1) (squote :: rest) = _
    simp only [tokenizeFuel, h, eq_self_iff_true, if_true]
    exact hcongr

theorem tokenize_word (c : Char) (rest : List Char) (hw : isWordChar c = true) :
    tokenize (c :: rest) =
      (c :: rest.takeWhile isWordChar) :: tokenize (rest.dropWhile isWordChar) := by
  have hc1 : ¬ c = dquote := by
    intro he; rw [he, isWordChar_dquote] at hw; exact Bool.noConfusion hw
  have hc2 : ¬ c = squote := by
    intro he; rw [he, isWordChar_squote] at hw; exact Bool.noConfusion hw
  have hlen := dropWhile_length_le isWordChar rest
  have hcongr : tokenizeFuel rest.length (rest.dropWhile isWordChar) =
      tokenize (rest.dropWhile isWordChar) :=
    tokenizeFuel_congr rest.length _ _ hlen (le_refl _)
  show tokenizeFuel (rest.length + 1) (c :: rest) = _
  simp only [tokenizeFuel, if_neg hc1, if_neg hc2, if_pos hw]
  rw [hcongr]

theorem tokenize_skip (c : Char) (rest : List Char)
    (hc1 : ¬ c = dquote) (hc2 : ¬ c = squote) (hw : isWordChar c = false) :
    tokenize (c :: rest) = tokenize rest := by
  show tokenizeFuel (rest.length + 1) (c :: rest) = _
  simp only [tokenizeFuel, if_neg hc1, if_neg hc2, hw]
  rfl

/-! ### Token provenance: every token is a quoted interior or a maximal word run -/

/-- `t` is the exact interior of a `q`-quoted run occurring in `l`: `l`
contains `q`, then `t` (which is free of `q`), then the closing `q`. -/
def QuotedInterior (q : Char) (l t : List Char) : Prop :=
  q ∉ t ∧ ∃ pre post, l = pre ++ q :: (t ++ q :: post)

/-- `t` is a maximal run of word/hyphen characters in `l`: nonempty, made
of word characters only, and not extendable on either side (the character
before it, if any, is not a word character, and likewise after). -/
def MaximalWordRun (l t : List Char) : Prop :=
  t ≠ [] ∧ (∀ c ∈ t, isWordChar c = true) ∧
    ∃ pre post, l = pre ++ t ++ post ∧
      (pre = [] ∨ ∃ pre0 d, pre = pre0 ++ [d] ∧ isWordChar d = false) ∧
      (post = [] ∨ ∃ d post0, post = d :: post0 ∧ isWordChar d = false)

/-- The shape every emitted token has, per the tokenizer regex. -/
def TokenShape (l t : List Char) : Prop :=
  QuotedInterior dquote l t ∨ QuotedInterior squote l t ∨ MaximalWordRun l t

theorem quotedInterior_prepend (q : Char) (chunk l t : List Char)
    (h : QuotedInterior q l t) : QuotedInterior q (chunk ++ l) t := by
  obtain ⟨hnm, pre, post, hdec⟩ := h
  exact ⟨hnm, chunk ++ pre, post, by rw [hdec]; simp⟩

theorem maximalWordRun_prepend (chunk l t : List Char)
    (hend : ∃ c0 d, chunk = c0 ++ [d] ∧ isWordChar d = false)
    (h : MaximalWordRun l t) : MaximalWordRun (chunk ++ l) t := by
  obtain ⟨hne, hall, pre, post, hdec, hpre, hpost⟩ := h
  refine ⟨hne, hall, chunk ++ pre, post, by rw [hdec]; simp, ?_, hpost⟩
  cases hpre with
  | inl hp =>
    subst hp
    obtain ⟨c0, d, hc, hd⟩ := hend
    exact Or.inr ⟨c0, d, by rw [hc]; simp, hd⟩
  | inr hp =>
    obtain ⟨pre0, d, hp1, hd⟩ := hp
    exact Or.inr ⟨chunk ++ pre0, d, by rw [hp1]; simp, hd⟩

theorem tokenShape_prepend (chunk l t : List Char)
    (hend : ∃ c0 d, chunk = c0 ++ [d] ∧ isWordChar d = false)
    (h : TokenShape l t) : TokenShape (chunk ++ l) t := by
  cases h with
  | inl h => exact Or.inl (quotedInterior_prepend dquote chunk l t h)
  | inr h =>
    cases h with
    | inl h => exact Or.inr (Or.inl (quotedInterior_prepend squote chunk l t h))
    | inr h => exact Or.inr (Or.inr (maximalWordRun_prepend chunk l t hend h))

theorem mem_takeWhile_true (p : Char → Bool) :
    ∀ (l : List Char) (c : Char), c ∈ l.takeWhile p → p c = true := by
  intro l
  induction l with
  | nil => intro c h; simp [List.takeWhile] at h
  | cons d tl ih =>
    intro c h
    by_cases hd : p d
    · rw [List.takeWhile_cons_of_pos hd] at h
      cases h with
      | head => exact hd
      | tail _ h => exact ih c h
    · rw [List.takeWhile_cons_of_neg hd] at h
      simp at h

/-- A token drawn from `tokenize (rest.dropWhile isWordChar)` that is a
maximal word run there is also one in `c :: rest`: its left neighbour
inside the dropped-to suffix cannot be the suffix head (which is not a
word character), so the run never abuts the preceding word run. -/
theorem maximalWordRun_word_prepend (c : Char) (rest t : List Char)
    (h : MaximalWordRun (rest.dropWhile isWordChar) t) :
    MaximalWordRun (c :: rest) t := by
  obtain ⟨hne, hall, pre, post, hdec, hpre, hpost⟩ := h
  have hsplit : c :: rest = (c :: rest.takeWhile isWordChar) ++ rest.dropWhile isWordChar := by
    simp [List.takeWhile_append_dropWhile]
  cases hpre with
  | inl hp =>
    subst hp
    simp at hdec
    obtain ⟨t0, t1, ht⟩ := List.exists_cons_of_ne_nil hne
    have hhead : List.dropWhile isWordChar rest = t0 :: (t1 ++ post) := by
      rw [hdec, ht]; simp
    have hfalse := dropWhile_head_false isWordChar rest t0 (t1 ++ post) hhead
    have htrue : isWordChar t0 = true := hall t0 (by rw [ht]; simp)
    rw [hfalse] at htrue
    exact absurd htrue (by simp)
  | inr hp =>
    obtain ⟨pre0, d, hp1, hd⟩ := hp
    refine ⟨hne, hall, (c :: rest.takeWhile isWordChar) ++ pre, post, ?_, ?_, hpost⟩
    · rw [hsplit, hdec]; simp
    · exact Or.inr ⟨(c :: rest.takeWhile isWordChar) ++ pre0, d, by rw [hp1]; simp, hd⟩

theorem tokenize_shape_aux :
    ∀ (n : Nat) (l : List Char), l.length ≤ n → ∀ t ∈ tokenize l, TokenShape l t := by
  intro n
  induction n with
  | zero =>
    intro l hl t ht
    have : l = [] := by
      cases l with
      | nil => rfl
      | cons c rest => simp at hl
    subst this
    rw [tokenize_nil] at ht
    simp at ht
  | succ n ih =>
    intro l hl t ht
    cases l with
    | nil => rw [tokenize_nil] at ht; simp at ht
    | cons c rest =>
      have hrest : rest.length ≤ n := by simp at hl; omega
      by_cases hc1 : c = dquote
      · subst hc1
        cases hsp : splitAtChar dquote rest with
        | some ab =>
          obtain ⟨interior, rest2⟩ := ab
          obtain ⟨hdec, hnm⟩ := splitAtChar_sound dquote rest interior rest2 hsp
          rw [tokenize_quote_closed dquote rest interior rest2 (Or.inl rfl) hsp] at ht
          cases ht with
          | head =>
            exact Or.inl ⟨hnm, [], rest2, by rw [hdec]; simp⟩
          | tail _ ht =>
            have hlen2 : rest2.length ≤ n := by
              have : rest.length = interior.length + 1 + rest2.length := by
                rw [hdec]; simp; omega
              omega
            have hshape := ih rest2 hlen2 t ht
            have hchunk : dquote :: rest = (dquote :: (interior ++ [dquote])) ++ rest2 := by
              rw [hdec]; simp
            rw [hchunk]
            exact tokenShape_prepend _ rest2 t
              ⟨dquote :: interior, dquote, by simp, isWordChar_dquote⟩ hshape
        | none =>
          rw [tokenize_quote_open dquote rest (Or.inl rfl) hsp] at ht
          have hshape := ih rest hrest t ht
          exact tokenShape_prepend [dquote] rest t
            ⟨[], dquote, by simp, isWordChar_dquote⟩ hshape
      · by_cases hc2 : c = squote
        · subst hc2
          cases hsp : splitAtChar squote rest with
          | some ab =>
            obtain ⟨interior, rest2⟩ := ab
            obtain ⟨hdec, hnm⟩ := splitAtChar_sound squote rest interior rest2 hsp
            rw [tokenize_quote_closed squote rest interior rest2 (Or.inr rfl) hsp] at ht
            cases ht with
            | head =>
              exact Or.inr (Or.inl ⟨hnm, [], rest2, by rw [hdec]; simp⟩)
            | tail _ ht =>
              have hlen2 : rest2.length ≤ n := by
                have : rest.length = interior.length + 1 + rest2.length := by
                  rw [hdec]; simp; omega
                omega
              have hshape := ih rest2 hlen2 t ht
              have hchunk : squote :: rest = (squote :: (interior ++ [squote])) ++ rest2 := by
                rw [hdec]; simp
              rw [hchunk]
              exact tokenShape_prepend _ rest2 t
                ⟨squote :: interior, squote, by simp, isWordChar_squote⟩ hshape
          | none =>
            rw [tokenize_quote_open squote rest (Or.inr rfl) hsp] at ht
            have hshape := ih rest hrest t ht
            exact tokenShape_prepend [squote] rest t
              ⟨[], squote, by simp, isWordChar_squote⟩ hshape
        · by_cases hw : isWordChar c
          · rw [tokenize_word c rest hw] at ht
            cases ht with
            | head =>
              refine Or.inr (Or.inr ⟨by simp, ?_, [], rest.dropWhile isWordChar, ?_, Or.inl rfl, ?_⟩)
              · intro x hx
                cases hx with
                | head => exact hw
                | tail _ hx => exact mem_takeWhile_true isWordChar rest x hx
              · simp [List.takeWhile_append_dropWhile]
              · cases hdw : rest.dropWhile isWordChar with
                | nil => exact Or.inl rfl
                | cons d post0 =>
                  exact Or.inr ⟨d, post0, rfl, dropWhile_head_false isWordChar rest d post0 hdw⟩
            | tail _ ht =>
              have hlen2 : (rest.dropWhile isWordChar).length ≤ n :=
                le_trans (dropWhile_length_le isWordChar rest) hrest
              have hshape := ih (rest.dropWhile isWordChar) hlen2 t ht
              cases hshape with
              | inl h =>
                have hchunk : c :: rest =
                    (c :: rest.takeWhile isWordChar) ++ rest.dropWhile isWordChar := by
                  simp [List.takeWhile_append_dropWhile]
                rw [hchunk]
                exact Or.inl (quotedInterior_prepend dquote _ _ t h)
              | inr h =>
                cases h with
                | inl h =>
                  have hchunk : c :: rest =
                      (c :: rest.takeWhile isWordChar) ++ rest.dropWhile isWordChar := by
                    simp [List.takeWhile_append_dropWhile]
                  rw [hchunk]
                  exact Or.inr (Or.inl (quotedInterior_prepend squote _ _ t h))
                | inr h =>
                  exact Or.inr (Or.inr (maximalWordRun_word_prepend c rest t h))
          · rw [tokenize_skip c rest hc1 hc2 (by simpa using hw)] at ht
            have hshape := ih rest hrest t ht
            exact tokenShape_prepend [c] rest t
              ⟨[], c, by simp, by simpa using hw⟩ hshape

/-- Claim C10: every token emitted by the REPL tokenizer is either the
exact interior of a single- or double-quoted run of the input line, or a
maximal run of word characters and hyphens of the line; in particular no
other character (`!`, `.`, `*`, `/`, `:`, ...) ever occurs inside an
unquoted token. -/
theorem tokenize_token_shape (l t : List Char) (ht : t ∈ tokenize l) : TokenShape l t :=
  tokenize_shape_aux l.length l (le_refl _) t ht

/-- Witness for `tokenize_token_shape` at the line `a!b` and its first
token `a`. -/
theorem tokenize_token_shape_witness :
    ['a'] ∈ tokenize ['a', '!', 'b'] ∧ TokenShape ['a', '!', 'b'] ['a'] :=
  ⟨by decide, tokenize_token_shape ['a', '!', 'b'] ['a'] (by decide)⟩

/-! ### Unterminated quotes (claim C3) -/

/-- Claim C3 counterexample: the spec says a dangling quoted run is
silently dropped and "does not contribute any tokens", but on the line
`"word` (an unterminated double-quoted run) the tokenizer emits the token
`word`: only the quote character is skipped, and the dangling text is
re-scanned as ordinary input. -/
theorem unterminated_quote_counterexample :
    tokenize [dquote, 'w', 'o', 'r', 'd'] = [['w', 'o', 'r', 'd']] ∧
      tokenize [dquote, 'w', 'o', 'r', 'd'] ≠ [] := by decide

/-- Claim C3 (amended): an unterminated quote yields no *quoted* token;
the unmatched quote character itself is skipped and the dangling text is
tokenized by the ordinary rules (so word runs inside it still produce
tokens). -/
theorem unterminated_quote_skipped (q : Char) (rest : List Char)
    (hq : q = dquote ∨ q = squote) (h : q ∉ rest) :
    tokenize (q :: rest) = tokenize rest :=
  tokenize_quote_open q rest hq (splitAtChar_none_of_not_mem q rest h)

/-- Witness for `unterminated_quote_skipped` on the line `"ab`. -/
theorem unterminated_quote_skipped_witness :
    dquote ∉ ['a', 'b'] ∧ tokenize (dquote :: ['a', 'b']) = tokenize ['a', 'b'] :=
  ⟨by decide, unterminated_quote_skipped dquote ['a', 'b'] (Or.inl rfl) (by decide)⟩

/-! ### Round-tripping token lists (claim C4) -/

/-- Joining a token list with single spaces, as in the round-trip law of
the spec. -/
def joinTokens : List (List Char) → List Char
  | [] => []
  | [t] => t
  | t :: ts => t ++ ' ' :: joinTokens ts

theorem isWordChar_space : isWordChar ' ' = false := by decide

theorem space_ne_dquote : ¬ (' ' = dquote) := by decide

theorem space_ne_squote : ¬ (' ' = squote) := by decide

/-- Tokenizing the space-join of nonempty all-word-character tokens
recovers exactly those tokens. -/
theorem tokenize_join_of_word_tokens :
    ∀ (ts : List (List Char)),
      (∀ t ∈ ts, t ≠ [] ∧ ∀ c ∈ t, isWordChar c = true) →
      tokenize (joinTokens ts) = ts := by
  intro ts
  induction ts with
  | nil => intro _; rfl
  | cons t ts ih =>
    intro h
    obtain ⟨hne, hall⟩ := h t (by simp)
    have htail : ∀ u ∈ ts, u ≠ [] ∧ ∀ c ∈ u, isWordChar c = true :=
      fun u hu => h u (by simp [hu])
    obtain ⟨c, cs, rfl⟩ := List.exists_cons_of_ne_nil hne
    have hc : isWordChar c = true := hall c (by simp)
    have hcs : ∀ x ∈ cs, isWordChar x = true := fun x hx => hall x (by simp [hx])
    cases ts with
    | nil =>
      show tokenize (c :: cs) = [c :: cs]
      rw [tokenize_word c cs hc]
      obtain ⟨h1, h2⟩ := takeWhile_all isWordChar cs hcs
      rw [h1, h2, tokenize_nil]
    | cons t2 ts2 =>
      show tokenize ((c :: cs) ++ ' ' :: joinTokens (t2 :: ts2)) = (c :: cs) :: t2 :: ts2
      rw [List.cons_append, tokenize_word c _ hc]
      obtain ⟨h1, h2⟩ :=
        takeWhile_append_stop isWordChar cs ' ' (joinTokens (t2 :: ts2)) hcs isWordChar_space
      rw [h1, h2, tokenize_skip ' ' _ space_ne_dquote space_ne_squote isWordChar_space,
        ih htail]

/-- Claim C4 counterexample: the round-trip law fails on the
balanced-quote line `"a b"`: it tokenizes to the single token `a b`, whose
space-join `a b` re-tokenizes to the two tokens `a`, `b`. -/
theorem tokenize_roundtrip_counterexample :
    tokenize [dquote, 'a', ' ', 'b', dquote] = [['a', ' ', 'b']] ∧
      tokenize (joinTokens (tokenize [dquote, 'a', ' ', 'b', dquote])) ≠
        tokenize [dquote, 'a', ' ', 'b', dquote] := by decide

/-- Claim C4 (amended): for every input line whose tokenization yields
only nonempty tokens consisting of word characters and hyphens, the
round trip is the identity — tokenizing the line, joining the resulting
tokens with single spaces, and tokenizing again yields the same token
sequence.  (The unrestricted balanced-quote claim fails, e.g. on the
quoted-space line of `tokenize_roundtrip_counterexample`, because the
rendered join loses the quotes.) -/
theorem tokenize_roundtrip_word_tokens (l : List Char)
    (h : ∀ t ∈ tokenize l, t ≠ [] ∧ ∀ c ∈ t, isWordChar c = true) :
    tokenize (joinTokens (tokenize l)) = tokenize l :=
  tokenize_join_of_word_tokens (tokenize l) h

/-- Witness for `tokenize_roundtrip_word_tokens` on the line
`ab -m "w1"` (all its tokens are word runs). -/
theorem tokenize_roundtrip_word_tokens_witness :
    (∀ t ∈ tokenize ['a', 'b', ' ', '-', 'm', ' ', dquote, 'w', '1', dquote],
        t ≠ [] ∧ ∀ c ∈ t, isWordChar c = true) ∧
      tokenize (joinTokens (tokenize ['a', 'b', ' ', '-', 'm', ' ', dquote, 'w', '1', dquote])) =
        tokenize ['a', 'b', ' ', '-', 'm', ' ', dquote, 'w', '1', dquote] :=
  ⟨by decide, tokenize_roundtrip_word_tokens _ (by decide)⟩

/-! ## Backend configuration (claim C2) and wallet construction (claim C9) -/

/-- The `bitcoin::Network` selector (`cli_opts.network`). -/
inductive Network where
  | bitcoin
  | testnet
  | regtest
deriving DecidableEq

/-- The Esplora options of `WalletOpts` as used by `new_online_wallet`
(source lines 100-109): an optional base URL and a concurrency value
(already defaulted by option parsing). -/
structure EsploraOpts where
  esplora : Option (List Char)
  esplora_concurrency : Nat
deriving DecidableEq

/-- The Electrum options of `WalletOpts` as used by `new_online_wallet`
(source lines 113-118); all fields are present (defaults are applied by
option parsing). -/
structure ElectrumOpts where
  electrum : List Char
  proxy : Option (List Char)
  retries : Nat
  timeout : Option Nat
deriving DecidableEq

/-- The fields of `WalletOpts` read by `new_online_wallet` and
`new_offline_wallet` (source lines 91-147). -/
structure WalletOpts where
  wallet : List Char
  descriptor : List Char
  change_descriptor : Option (List Char)
  esplora_opts : EsploraOpts
  electrum_opts : ElectrumOpts
deriving DecidableEq

/-- `bdk::blockchain::AnyBlockchainConfig`: the tagged union of backend
configurations built in `new_online_wallet` (source lines 100-118). -/
inductive AnyBlockchainConfig where
  | esplora (base_url : List Char) (concurrency : Option Nat)
  | electrum (url : List Char) (socks5 : Option (List Char)) (retry : Nat)
      (timeout : Option Nat)
deriving DecidableEq

/-- The backend-config builder inside `new_online_wallet` (source lines
99-121, with the `esplora` cargo feature enabled): map the optional
Esplora base URL to an Esplora config, always build the Electrum config
from the Electrum options, and fall back to Electrum only when no Esplora
base URL was supplied (`config_esplora.unwrap_or(config_electrum)`). -/
def backendConfig (w : WalletOpts) : AnyBlockchainConfig :=
  let config_esplora : Option AnyBlockchainConfig :=
    w.esplora_opts.esplora.map (fun base_url =>
      AnyBlockchainConfig.esplora base_url (some w.esplora_opts.esplora_concurrency))
  let config_electrum : AnyBlockchainConfig :=
    AnyBlockchainConfig.electrum w.electrum_opts.electrum w.electrum_opts.proxy
      w.electrum_opts.retries w.electrum_opts.timeout
  config_esplora.getD config_electrum

/-- Claim C2: the backend-config builder is total (it is a plain function,
so it never fails) and applies the Esplora-wins precedence: a supplied
Esplora base URL always yields the Esplora variant with the (defaulted)
concurrency, even though the Electrum options are always present;
otherwise the Electrum variant is built from the Electrum options. -/
theorem backendConfig_precedence (w : WalletOpts) :
    (∀ url, w.esplora_opts.esplora = some url →
        backendConfig w =
          AnyBlockchainConfig.esplora url (some w.esplora_opts.esplora_concurrency))
    ∧ (w.esplora_opts.esplora = none →
        backendConfig w =
          AnyBlockchainConfig.electrum w.electrum_opts.electrum w.electrum_opts.proxy
            w.electrum_opts.retries w.electrum_opts.timeout) := by
  constructor
  · intro url hurl
    simp [backendConfig, hurl]
  · intro hnone
    simp [backendConfig, hnone]

/-- A concrete `WalletOpts` value with both an Esplora base URL and
Electrum options supplied, for witnesses and counterexamples. -/
def sampleOptsBoth : WalletOpts :=
  { wallet := ['m', 'a', 'i', 'n']
    descriptor := ['d']
    change_descriptor := none
    esplora_opts := { esplora := some ['e', 's', 'p'], esplora_concurrency := 4 }
    electrum_opts :=
      { electrum := ['e', 'l', 'e'], proxy := none, retries := 5, timeout := none } }

/-- Witness for `backendConfig_precedence`: with both backends supplied,
the builder yields the Esplora variant. -/
theorem backendConfig_precedence_witness :
    sampleOptsBoth.esplora_opts.esplora = some ['e', 's', 'p'] ∧
      backendConfig sampleOptsBoth =
        AnyBlockchainConfig.esplora ['e', 's', 'p'] (some 4) :=
  ⟨by decide, (backendConfig_precedence sampleOptsBoth).1 ['e', 's', 'p'] (by decide)⟩

/-- The wallet-library collaborator as used by `new_online_wallet` and
`new_offline_wallet`: `AnyBlockchain::from_config`, `Wallet::new` and
`Wallet::new_offline`, over an abstract database handle type `D`,
blockchain handle type `B`, and wallet handle types `OW` (online) and
`FW` (offline). -/
structure WalletLib (D E B OW FW : Type) where
  from_config : AnyBlockchainConfig → Except E B
  wallet_new : List Char → Option (List Char) → Network → D → B → Except E OW
  wallet_new_offline : List Char → Option (List Char) → Network → D → Except E FW

/-- `new_online_wallet` (source lines 91-133): build the backend config,
construct the blockchain from it (`?` propagates its error), then
construct the online wallet. -/
def new_online_wallet (lib : WalletLib D E B OW FW) (network : Network)
    (w : WalletOpts) (database : D) : Except E OW := do
  let config := backendConfig w
  let blockchain ← lib.from_config config
  lib.wallet_new w.descriptor w.change_descriptor network database blockchain

/-- `new_offline_wallet` (source lines 135-147): construct the offline
wallet directly; no backend configuration or blockchain is involved. -/
def new_offline_wallet (lib : WalletLib D E B OW FW) (network : Network)
    (w : WalletOpts) (database : D) : Except E FW :=
  lib.wallet_new_offline w.descriptor w.change_descriptor network database

/-- The one-shot `OfflineWalletSubCommand` branch of `main` (source lines
170-177): construct the offline wallet, then run the offline handler on
it.  The source's `unwrap()` panics are modelled as `Except` propagation:
a `.error` outcome aborts the run. -/
def oneShotOffline (lib : WalletLib D E B OW FW)
    (handleOffline : FW → Off → Except E R) (network : Network)
    (w : WalletOpts) (database : D) (sub : Off) : Except E R := do
  let wallet ← new_offline_wallet lib network w database
  handleOffline wallet sub

/-- The `Init` phase of the interactive `Repl` branch of `main` (source
lines 185-187): the session wallet is constructed by `new_online_wallet`
(and `unwrap`ped, so a `.error` outcome is fatal to the session before
the loop ever runs). -/
def replInit (lib : WalletLib D E B OW FW) (network : Network)
    (w : WalletOpts) (database : D) : Except E OW :=
  new_online_wallet lib network w database

/-- A wallet library whose blockchain construction always fails but whose
wallet constructors succeed, over unit handle types. -/
def failingBackendLib : WalletLib Unit Unit Unit Unit Unit :=
  { from_config := fun _ => Except.error ()
    wallet_new := fun _ _ _ _ _ => Except.ok ()
    wallet_new_offline := fun _ _ _ _ => Except.ok () }

/-- The same library with blockchain construction succeeding. -/
def workingBackendLib : WalletLib Unit Unit Unit Unit Unit :=
  { from_config := fun _ => Except.ok ()
    wallet_new := fun _ _ _ _ _ => Except.ok ()
    wallet_new_offline := fun _ _ _ _ => Except.ok () }

/-- Claim C9 counterexample: with a backend whose construction fails, a
one-shot offline operation still succeeds, but interactive-session
initialization fails (the `Repl` branch unwraps `new_online_wallet`), so
no offline operation can ever execute in that session; flipping only the
backend constructor to a succeeding one changes the interactive outcome.
Hence executing an offline operation does depend on backend construction
in interactive mode, refuting the claim as stated. -/
theorem offline_depends_on_backend_interactively :
    oneShotOffline failingBackendLib (fun _ _ => Except.ok ()) Network.testnet
        sampleOptsBoth () () = Except.ok ()
    ∧ replInit failingBackendLib Network.testnet sampleOptsBoth () = Except.error ()
    ∧ replInit workingBackendLib Network.testnet sampleOptsBoth () = Except.ok () := by
  exact ⟨rfl, rfl, rfl⟩

/-- Claim C9 (amended): in one-shot mode an offline wallet operation
requires only the offline wallet handle and never depends on backend
construction — replacing the blockchain constructor by any other function
leaves the one-shot offline result unchanged; in interactive mode the
session wallet is online, so a backend-construction failure is fatal at
`Init`, before any offline operation can run. -/
theorem offline_dispatch_modes (lib : WalletLib D E B OW FW)
    (fc2 : AnyBlockchainConfig → Except E B)
    (handleOffline : FW → Off → Except E R) (network : Network)
    (w : WalletOpts) (database : D) (sub : Off) :
    oneShotOffline ⟨fc2, lib.wallet_new, lib.wallet_new_offline⟩ handleOffline
        network w database sub
      = oneShotOffline lib handleOffline network w database sub
    ∧ (∀ e : E, lib.from_config (backendConfig w) = Except.error e →
        replInit lib network w database = Except.error e) := by
  constructor
  · rfl
  · intro e he
    simp only [replInit, new_online_wallet, he]
    rfl

/-- Witness for `offline_dispatch_modes` at concrete unit instances. -/
theorem offline_dispatch_modes_witness :
    failingBackendLib.from_config (backendConfig sampleOptsBoth) = Except.error ()
    ∧ replInit failingBackendLib Network.testnet sampleOptsBoth () = Except.error () :=
  ⟨rfl,
    (offline_dispatch_modes failingBackendLib (fun _ => Except.ok ())
      (fun _ _ => Except.ok ()) Network.testnet sampleOptsBoth () ()).2 () rfl⟩

/-! ## The interactive REPL cycle (source lines 197-257) -/

/-- `ReplSubCommand` (source lines 59-68): the closed command grammar of
interactive mode, with the payloads of the three operation families kept
abstract (they are parsed by the clap-derived resolver of the library
crate). -/
inductive ReplSubCommand (On Off K : Type) where
  | onlineWalletSubCommand (c : On)
  | offlineWalletSubCommand (c : Off)
  | keySubCommand (k : K)
  | exit
deriving DecidableEq

/-- The structured parse failure returned by `from_iter_safe`
(`clap::Error`); `main` prints only its `message` field (line 220). -/
structure ParseFail where
  message : List Char
deriving DecidableEq

/-- One outcome of `rl.readline(">> ")` (source lines 198-255):
a line, an interrupt, end-of-input, or any other read error. -/
inductive ReadEvent where
  | okLine (line : List Char)
  | interrupted
  | eof
  | readFailure (msg : List Char)
deriving DecidableEq

/-- What one cycle prints: a bare parser message (`println!("{}",
err.message)`, line 220), a pretty-printed JSON success result
(`println!("{}", serde_json::to_string_pretty(..))`, lines 245-248), or
the debug-formatted read error (`println!("{:?}", err)`, line 253). -/
inductive ReplOutput (R : Type) where
  | parseMessage (msg : List Char)
  | renderedResult (r : R)
  | readErrorDebug (msg : List Char)
deriving DecidableEq

/-- Instrumentation trace of one cycle: which internal steps ran. -/
inductive ReplAction (On Off K : Type) where
  | tokenizedLine (tokens : List (List Char))
  | dispatchedOnline (c : On)
  | dispatchedOffline (c : Off)
  | dispatchedKey (k : K)
deriving DecidableEq

/-- How the cycle ends: `next` re-enters the read loop (`continue` or
falling through to the next iteration), `broke` leaves the loop (`break`,
after which "Exiting REPL" is printed), `panicked` models the
`result.unwrap()` panic on a collaborator error (lines 245-248), which
aborts the whole process. -/
inductive ReplControl (E : Type) where
  | next
  | broke
  | panicked (e : E)
deriving DecidableEq

/-- The observable result of one REPL cycle. -/
structure StepResult (S On Off K R E : Type) where
  actions : List (ReplAction On Off K)
  outputs : List (ReplOutput R)
  control : ReplControl E
  state : S
deriving DecidableEq

/-- The collaborator handlers dispatched to by `main`:
`handle_online_wallet_subcommand` and `handle_offline_wallet_subcommand`
take the session wallet (modelled as explicit state `S`, threaded through
because the wallet mutates internally), while `handle_key_subcommand`
takes only the network and the key subcommand (lines 239-241). -/
structure ReplHandlers (S On Off K R E : Type) where
  handle_online_wallet_subcommand : S → On → Except E R × S
  handle_offline_wallet_subcommand : S → Off → Except E R × S
  handle_key_subcommand : Network → K → Except E R

/-- One cycle of the REPL loop of `main` (source lines 197-257), as a
function of the read event: a blank line is skipped before tokenization
(line 201); otherwise the line is tokenized (lines 205-214) and resolved
(`ReplSubCommand::from_iter_safe`, abstract parameter `resolve`); a parse
error prints only the parser message and continues (lines 219-222); a
resolved operation is dispatched to its handler family (lines 226-243)
and the result unwrapped and rendered (lines 245-248) — an error result
makes `unwrap` panic; `Exit` breaks without dispatch (line 242);
`Interrupted` continues, `Eof` breaks, and any other read error prints
its debug form and breaks (lines 250-255). -/
def replStep (h : ReplHandlers S On Off K R E)
    (resolve : List (List Char) → Except ParseFail (ReplSubCommand On Off K))
    (network : Network) (s : S) : ReadEvent → StepResult S On Off K R E
  | ReadEvent.okLine line =>
    if trim line = [] then ⟨[], [], ReplControl.next, s⟩
    else
      match resolve (tokenize line) with
      | Except.error err =>
        ⟨[ReplAction.tokenizedLine (tokenize line)],
          [ReplOutput.parseMessage err.message], ReplControl.next, s⟩
      | Except.ok (ReplSubCommand.onlineWalletSubCommand c) =>
        match h.handle_online_wallet_subcommand s c with
        | (Except.ok r, s2) =>
          ⟨[ReplAction.tokenizedLine (tokenize line), ReplAction.dispatchedOnline c],
            [ReplOutput.renderedResult r], ReplControl.next, s2⟩
        | (Except.error e, s2) =>
          ⟨[ReplAction.tokenizedLine (tokenize line), ReplAction.dispatchedOnline c],
            [], ReplControl.panicked e, s2⟩
      | Except.ok (ReplSubCommand.offlineWalletSubCommand c) =>
        match h.handle_offline_wallet_subcommand s c with
        | (Except.ok r, s2) =>
          ⟨[ReplAction.tokenizedLine (tokenize line), ReplAction.dispatchedOffline c],
            [ReplOutput.renderedResult r], ReplControl.next, s2⟩
        | (Except.error e, s2) =>
          ⟨[ReplAction.tokenizedLine (tokenize line), ReplAction.dispatchedOffline c],
            [], ReplControl.panicked e, s2⟩
      | Except.ok (ReplSubCommand.keySubCommand k) =>
        match h.handle_key_subcommand network k with
        | Except.ok r =>
          ⟨[ReplAction.tokenizedLine (tokenize line), ReplAction.dispatchedKey k],
            [ReplOutput.renderedResult r], ReplControl.next, s⟩
        | Except.error e =>
          ⟨[ReplAction.tokenizedLine (tokenize line), ReplAction.dispatchedKey k],
            [], ReplControl.panicked e, s⟩
      | Except.ok ReplSubCommand.exit =>
        ⟨[ReplAction.tokenizedLine (tokenize line)], [], ReplControl.broke, s⟩
  | ReadEvent.interrupted => ⟨[], [], ReplControl.next, s⟩
  | ReadEvent.eof => ⟨[], [], ReplControl.broke, s⟩
  | ReadEvent.readFailure msg => ⟨[], [ReplOutput.readErrorDebug msg], ReplControl.broke, s⟩

/-- Whether a trace action is a dispatch to a collaborator handler. -/
def isDispatchAction : ReplAction On Off K → Bool
  | ReplAction.tokenizedLine _ => false
  | ReplAction.dispatchedOnline _ => true
  | ReplAction.dispatchedOffline _ => true
  | ReplAction.dispatchedKey _ => true

/-! ### Concrete instances used by witnesses and counterexamples -/

/-- Handlers over unit payloads whose operations all succeed. -/
def okHandlers : ReplHandlers Unit Unit Unit Unit Unit Unit :=
  { handle_online_wallet_subcommand := fun s _ => (Except.ok (), s)
    handle_offline_wallet_subcommand := fun s _ => (Except.ok (), s)
    handle_key_subcommand := fun _ _ => Except.ok () }

/-- Handlers over unit payloads whose operations all fail. -/
def errorHandlers : ReplHandlers Unit Unit Unit Unit Unit Unit :=
  { handle_online_wallet_subcommand := fun s _ => (Except.error (), s)
    handle_offline_wallet_subcommand := fun s _ => (Except.error (), s)
    handle_key_subcommand := fun _ _ => Except.error () }

/-- Succeeding handlers whose session state is a `Bool`, so two distinct
session states exist. -/
def boolHandlers : ReplHandlers Bool Unit Unit Unit Unit Unit :=
  { handle_online_wallet_subcommand := fun s _ => (Except.ok (), s)
    handle_offline_wallet_subcommand := fun s _ => (Except.ok (), s)
    handle_key_subcommand := fun _ _ => Except.ok () }

/-- A resolver mapping every token list to an online operation. -/
def resolveToOnline : List (List Char) → Except ParseFail (ReplSubCommand Unit Unit Unit) :=
  fun _ => Except.ok (ReplSubCommand.onlineWalletSubCommand ())

/-- A resolver mapping every token list to a key operation. -/
def resolveToKey : List (List Char) → Except ParseFail (ReplSubCommand Unit Unit Unit) :=
  fun _ => Except.ok (ReplSubCommand.keySubCommand ())

/-- A resolver mapping every token list to `Exit`. -/
def resolveToExit : List (List Char) → Except ParseFail (ReplSubCommand Unit Unit Unit) :=
  fun _ => Except.ok ReplSubCommand.exit

/-- A resolver rejecting every token list with message `bad`. -/
def resolveToFail : List (List Char) → Except ParseFail (ReplSubCommand Unit Unit Unit) :=
  fun _ => Except.error { message := ['b', 'a', 'd'] }

/-! ### Claims about the REPL cycle -/

/-- Claim C1 evaluated at its failing input (code bug): on the line
`sync`, resolved to an online operation whose collaborator handler
returns an error, the cycle hits `result.unwrap()` (source lines
245-248), so it panics, prints nothing, and does not continue to the
next read cycle — instead of reporting the error through the rendering
path and re-entering the loop as the spec requires. -/
theorem collaborator_error_panics :
    (replStep errorHandlers resolveToOnline Network.testnet ()
        (ReadEvent.okLine ['s', 'y', 'n', 'c'])).control = ReplControl.panicked ()
    ∧ (replStep errorHandlers resolveToOnline Network.testnet ()
        (ReadEvent.okLine ['s', 'y', 'n', 'c'])).outputs = []
    ∧ (replStep errorHandlers resolveToOnline Network.testnet ()
        (ReadEvent.okLine ['s', 'y', 'n', 'c'])).control ≠ ReplControl.next := by
  decide

/-- Claim C5: a `Running` cycle ends the session (reaches `Terminated`,
i.e. breaks out of the loop toward the final status message) exactly when
the resolved request is `Exit`, the input reached end-of-input, or an
unrecoverable read error occurred; and in every such case no collaborator
handler was dispatched during that cycle.  (A collaborator-error panic is
a distinct abnormal outcome, not a transition to `Terminated`.) -/
theorem repl_termination (h : ReplHandlers S On Off K R E)
    (resolve : List (List Char) → Except ParseFail (ReplSubCommand On Off K))
    (network : Network) (s : S) (ev : ReadEvent) :
    ((replStep h resolve network s ev).control = ReplControl.broke ↔
      (ev = ReadEvent.eof
        ∨ (∃ m, ev = ReadEvent.readFailure m)
        ∨ (∃ line, ev = ReadEvent.okLine line ∧ trim line ≠ []
            ∧ resolve (tokenize line) = Except.ok ReplSubCommand.exit)))
    ∧ ((replStep h resolve network s ev).control = ReplControl.broke →
        ∀ a ∈ (replStep h resolve network s ev).actions, isDispatchAction a = false) := by
  cases ev with
  | okLine line =>
    by_cases htrim : trim line = []
    · constructor
      · simp [replStep, htrim]
      · intro hc
        simp [replStep, htrim] at hc
    · cases hres : resolve (tokenize line) with
      | error err =>
        constructor
        · simp [replStep, htrim, hres]
        · intro hc
          simp [replStep, htrim, hres] at hc
      | ok cmd =>
        cases cmd with
        | onlineWalletSubCommand c =>
          cases hh : h.handle_online_wallet_subcommand s c with
          | mk res s2 =>
            cases res with
            | ok r =>
              constructor
              · simp [replStep, htrim, hres, hh]
              · intro hc
                simp [replStep, htrim, hres, hh] at hc
            | error e =>
              constructor
              · simp [replStep, htrim, hres, hh]
              · intro hc
                simp [replStep, htrim, hres, hh] at hc
        | offlineWalletSubCommand c =>
          cases hh : h.handle_offline_wallet_subcommand s c with
          | mk res s2 =>
            cases res with
            | ok r =>
              constructor
              · simp [replStep, htrim, hres, hh]
              · intro hc
                simp [replStep, htrim, hres, hh] at hc
            | error e =>
              constructor
              · simp [replStep, htrim, hres, hh]
              · intro hc
                simp [replStep, htrim, hres, hh] at hc
        | keySubCommand k =>
          cases hh : h.handle_key_subcommand network k with
          | ok r =>
            constructor
            · simp [replStep, htrim, hres, hh]
            · intro hc
              simp [replStep, htrim, hres, hh] at hc
          | error e =>
            constructor
            · simp [replStep, htrim, hres, hh]
            · intro hc
              simp [replStep, htrim, hres, hh] at hc
        | exit =>
          constructor
          · simp [replStep, htrim, hres]
          · intro _
            simp [replStep, htrim, hres, isDispatchAction]
  | interrupted =>
    constructor
    · simp [replStep]
    · intro hc
      simp [replStep] at hc
  | eof =>
    constructor
    · simp [replStep]
    · intro _
      simp [replStep]
  | readFailure msg =>
    constructor
    · simp [replStep]
    · intro _
      simp [replStep]

/-- Witness for `repl_termination`: at end-of-input the loop breaks. -/
theorem repl_termination_witness :
    (replStep okHandlers resolveToExit Network.testnet () ReadEvent.eof).control
      = ReplControl.broke :=
  (repl_termination okHandlers resolveToExit Network.testnet () ReadEvent.eof).1.mpr
    (Or.inl rfl)

/-- Claim C6: on a nonblank interactive line that fails to resolve, the
cycle prints exactly the parser's message (no JSON-rendered result),
dispatches nothing, leaves the session state unchanged, and re-enters the
loop. -/
theorem parse_error_no_dispatch (h : ReplHandlers S On Off K R E)
    (resolve : List (List Char) → Except ParseFail (ReplSubCommand On Off K))
    (network : Network) (s : S) (line : List Char) (err : ParseFail)
    (hblank : trim line ≠ [])
    (hres : resolve (tokenize line) = Except.error err) :
    replStep h resolve network s (ReadEvent.okLine line) =
      ⟨[ReplAction.tokenizedLine (tokenize line)],
        [ReplOutput.parseMessage err.message], ReplControl.next, s⟩ := by
  simp [replStep, hblank, hres]

/-- Witness for `parse_error_no_dispatch` on the line `quit` with the
always-failing resolver. -/
theorem parse_error_no_dispatch_witness :
    trim ['q', 'u', 'i', 't'] ≠ [] ∧
      replStep okHandlers resolveToFail Network.testnet ()
          (ReadEvent.okLine ['q', 'u', 'i', 't']) =
        ⟨[ReplAction.tokenizedLine (tokenize ['q', 'u', 'i', 't'])],
          [ReplOutput.parseMessage ['b', 'a', 'd']], ReplControl.next, ()⟩ :=
  ⟨by decide,
    parse_error_no_dispatch okHandlers resolveToFail Network.testnet ()
      ['q', 'u', 'i', 't'] { message := ['b', 'a', 'd'] } (by decide) rfl⟩

/-- Claim C7: a blank or whitespace-only line, and an interrupt signal
during the read, each produce an empty cycle: no tokenization, no
dispatch, no output, unchanged session state, and the loop re-enters
`Running` (the prompt is shown again). -/
theorem blank_and_interrupt_reprompt (h : ReplHandlers S On Off K R E)
    (resolve : List (List Char) → Except ParseFail (ReplSubCommand On Off K))
    (network : Network) (s : S) :
    (∀ line, trim line = [] →
        replStep h resolve network s (ReadEvent.okLine line) =
          ⟨[], [], ReplControl.next, s⟩)
    ∧ replStep h resolve network s ReadEvent.interrupted =
        ⟨[], [], ReplControl.next, s⟩ := by
  constructor
  · intro line htrim
    simp [replStep, htrim]
  · rfl

/-- Witness for `blank_and_interrupt_reprompt` on a two-space line. -/
theorem blank_and_interrupt_reprompt_witness :
    trim [' ', ' '] = [] ∧
      replStep okHandlers resolveToFail Network.testnet ()
          (ReadEvent.okLine [' ', ' ']) = ⟨[], [], ReplControl.next, ()⟩ :=
  ⟨by decide,
    (blank_and_interrupt_reprompt okHandlers resolveToFail Network.testnet ()).1
      [' ', ' '] (by decide)⟩

/-- The one-shot `Key` branch of `main` (source lines 179-184): no
database is opened and no wallet is constructed; the key handler is
called with only the network and the key subcommand. -/
def oneShotKey (handle_key_subcommand : Network → K → Except E R)
    (network : Network) (k : K) : Except E R :=
  handle_key_subcommand network k

/-- The outputs and control that the REPL derives from a key dispatch
result (source lines 239-248). -/
def keyStepOutcome (res : Except E R) : List (ReplOutput R) × ReplControl E :=
  match res with
  | Except.ok r => ([ReplOutput.renderedResult r], ReplControl.next)
  | Except.error e => ([], ReplControl.panicked e)

/-- Claim C8: a dispatched key operation's observable result is a
function of the network and the key subcommand alone: for any two session
states the cycle produces the same outputs and control, determined by
`handle_key_subcommand network k` — exactly the value the sessionless
one-shot `Key` branch computes — and the session state passes through
unchanged. -/
theorem keyop_ignores_session (h : ReplHandlers S On Off K R E)
    (resolve : List (List Char) → Except ParseFail (ReplSubCommand On Off K))
    (network : Network) (line : List Char) (k : K) (s1 s2 : S)
    (hblank : trim line ≠ [])
    (hres : resolve (tokenize line) = Except.ok (ReplSubCommand.keySubCommand k)) :
    ((replStep h resolve network s1 (ReadEvent.okLine line)).outputs,
        (replStep h resolve network s1 (ReadEvent.okLine line)).control)
      = keyStepOutcome (oneShotKey h.handle_key_subcommand network k)
    ∧ ((replStep h resolve network s2 (ReadEvent.okLine line)).outputs,
        (replStep h resolve network s2 (ReadEvent.okLine line)).control)
      = keyStepOutcome (oneShotKey h.handle_key_subcommand network k)
    ∧ (replStep h resolve network s1 (ReadEvent.okLine line)).state = s1
    ∧ (replStep h resolve network s2 (ReadEvent.okLine line)).state = s2 := by
  cases hh : h.handle_key_subcommand network k with
  | ok r =>
    refine ⟨?_, ?_, ?_, ?_⟩ <;>
      simp [replStep, hblank, hres, hh, oneShotKey, keyStepOutcome]
  | error e =>
    refine ⟨?_, ?_, ?_, ?_⟩ <;>
      simp [replStep, hblank, hres, hh, oneShotKey, keyStepOutcome]

/-- Witness for `keyop_ignores_session` with two distinct session states
over `Bool`. -/
theorem keyop_ignores_session_witness :
    trim ['k', 'e', 'y'] ≠ [] ∧
      ((replStep boolHandlers resolveToKey Network.testnet false
          (ReadEvent.okLine ['k', 'e', 'y'])).outputs,
        (replStep boolHandlers resolveToKey Network.testnet false
          (ReadEvent.okLine ['k', 'e', 'y'])).control)
        = keyStepOutcome (oneShotKey boolHandlers.handle_key_subcommand Network.testnet ()) :=
  ⟨by decide,
    (keyop_ignores_session boolHandlers resolveToKey Network.testnet
      ['k', 'e', 'y'] () false true (by decide) rfl).1⟩

end BdkCli
